import Mathlib

/-!
Verification of the Goons-squad location plugin (files `main.py` and
`goons/main.py`): a shallow embedding of its reconciliation engine, alias
resolution, time parsing/formatting and fetch/cache state logic, together
with theorems settling the specification's claims.

Python strings are modelled as `String` (sequences of code points), Python
`dict`s as insertion-ordered association lists, and the mutable plugin
attributes as an explicit state record.  All definitions are executable.
-/

namespace Goons

/-- Python string comparison `s < t` on the underlying character lists:
lexicographic by code point, a proper prefix is smaller. -/
def listLtB : List Char → List Char → Bool
  | [], [] => false
  | [], _ :: _ => true
  | _ :: _, [] => false
  | a :: as, b :: bs =>
    if a.toNat < b.toNat then true
    else if b.toNat < a.toNat then false
    else listLtB as bs

/-- Python `s < t` for strings (the comparison behind
`update_time > latest_data[display_name]` in `_process_mode_data`). -/
def strLtB (s t : String) : Bool := listLtB s.data t.data

/-- The constant `MAP_NAME_SEPARATOR = " / "` as a character list. -/
def mapSep : List Char := [' ', '/', ' ']

/-- Left-to-right scan of Python `s.split(sep)` / `sep in s`: the characters
after the first occurrence of `sep` in `s`, or `none` when `sep` does not
occur in `s`. -/
def dropAfterFirstSep (sep : List Char) : List Char → Option (List Char)
  | [] => none
  | c :: cs =>
    if sep.isPrefixOf (c :: cs) then some (List.drop sep.length (c :: cs))
    else dropAfterFirstSep sep cs

/-- The characters before the first occurrence of `sep` (all of the input when
`sep` does not occur): the next field produced by Python `s.split(sep)`. -/
def takeBeforeFirstSep (sep : List Char) : List Char → List Char
  | [] => []
  | c :: cs =>
    if sep.isPrefixOf (c :: cs) then []
    else c :: takeBeforeFirstSep sep cs

/-- Python substring test `needle in hay`. -/
def hasInfixB (needle : List Char) : List Char → Bool
  | [] => needle.isPrefixOf []
  | c :: cs => needle.isPrefixOf (c :: cs) || hasInfixB needle cs

/-- `_get_map_display_name` (`main.py` lines 66-70 and `goons/main.py` lines
211-216): `if " / " in api_map_name: return api_map_name.split(" / ")[1]`,
otherwise the name unchanged.  Element 1 of the split is the chunk strictly
between the first occurrence of the separator and the following one. -/
def getMapDisplayName (api_map_name : String) : String :=
  match dropAfterFirstSep mapSep api_map_name.data with
  | some rest => String.mk (takeBeforeFirstSep mapSep rest)
  | none => api_map_name

/-- The display-name derivation as the specification's sentence words it:
"take the substring after it", i.e. everything after the first occurrence of
the separator.  Kept only to compare the claim's wording against the code. -/
def specDisplayNameAfterSep (api_map_name : String) : String :=
  match dropAfterFirstSep mapSep api_map_name.data with
  | some rest => String.mk rest
  | none => api_map_name

lemma isPrefixOf_ex_append {p l : List Char} (h : p.isPrefixOf l = true) :
    ∃ t, l = p ++ t := by
  induction p generalizing l with
  | nil => exact ⟨l, rfl⟩
  | cons a as ih =>
    cases l with
    | nil => simp [List.isPrefixOf] at h
    | cons b bs =>
      simp only [List.isPrefixOf, Bool.and_eq_true, beq_iff_eq] at h
      obtain ⟨rfl, h2⟩ := h
      obtain ⟨t, rfl⟩ := ih h2
      exact ⟨t, rfl⟩

lemma isPrefixOf_append_self (p t : List Char) : p.isPrefixOf (p ++ t) = true := by
  induction p with
  | nil => simp [List.isPrefixOf]
  | cons a as ih => simp [List.isPrefixOf, ih]

lemma dropAfterFirstSep_eq_none_of_hasInfixB_false {sep s : List Char}
    (h : hasInfixB sep s = false) : dropAfterFirstSep sep s = none := by
  induction s with
  | nil => rfl
  | cons c cs ih =>
    simp only [hasInfixB, Bool.or_eq_false_iff] at h
    simp only [dropAfterFirstSep, h.1, if_false]
    exact ih h.2

lemma dropAfterFirstSep_eq_some_of_hasInfixB_true {sep s : List Char}
    (hsep : sep ≠ []) (h : hasInfixB sep s = true) :
    ∃ rest, dropAfterFirstSep sep s = some rest := by
  induction s with
  | nil =>
    exfalso
    cases sep with
    | nil => exact hsep rfl
    | cons x xs => simp [hasInfixB, List.isPrefixOf] at h
  | cons c cs ih =>
    by_cases hp : sep.isPrefixOf (c :: cs) = true
    · exact ⟨List.drop sep.length (c :: cs), by simp [dropAfterFirstSep, hp]⟩
    · rw [Bool.not_eq_true] at hp
      simp only [hasInfixB, hp, Bool.false_or] at h
      obtain ⟨rest, hrest⟩ := ih h
      exact ⟨rest, by simp [dropAfterFirstSep, hp, hrest]⟩

lemma dropAfterFirstSep_decomp {sep s rest : List Char} (hsep : sep ≠ [])
    (h : dropAfterFirstSep sep s = some rest) :
    ∃ pre, s = pre ++ sep ++ rest ∧ hasInfixB sep pre = false := by
  induction s with
  | nil => simp [dropAfterFirstSep] at h
  | cons c cs ih =>
    by_cases hp : sep.isPrefixOf (c :: cs) = true
    · simp only [dropAfterFirstSep, hp, if_true, Option.some.injEq] at h
      obtain ⟨t, ht⟩ := isPrefixOf_ex_append hp
      refine ⟨[], ?_, ?_⟩
      · have hlen : rest = t := by
          rw [← h, ht]
          exact List.drop_left sep t
        rw [ht, hlen]
        rfl
      · cases sep with
        | nil => exact absurd rfl hsep
        | cons x xs => simp [hasInfixB, List.isPrefixOf]
    · rw [Bool.not_eq_true] at hp
      simp only [dropAfterFirstSep, hp, Bool.false_eq_true, if_false] at h
      obtain ⟨pre, h1, h2⟩ := ih h
      refine ⟨c :: pre, by simp [h1], ?_⟩
      simp only [hasInfixB, Bool.or_eq_false_iff]
      refine ⟨?_, h2⟩
      by_contra hc
      rw [Bool.not_eq_false] at hc
      obtain ⟨t, ht⟩ := isPrefixOf_ex_append hc
      have hpc : sep.isPrefixOf (c :: cs) = true := by
        have hcs : c :: cs = sep ++ (t ++ (sep ++ rest)) := by
          have hstep : c :: cs = (c :: pre) ++ (sep ++ rest) := by simp [h1]
          rw [hstep, ht]
          simp [List.append_assoc]
        rw [hcs]
        exact isPrefixOf_append_self sep _
      rw [hp] at hpc
      exact absurd hpc (by simp)

/-- C3 (counterexample): the claim says the derived display name is "the
substring after that separator", but on `"a / b / c"` the code takes element 1
of the split — the chunk `"b"` strictly between the first and second
occurrence — not the substring `"b / c"` after the first separator. -/
theorem C3_counterexample :
    getMapDisplayName "a / b / c" = "b" ∧
    specDisplayNameAfterSep "a / b / c" = "b / c" ∧
    getMapDisplayName "a / b / c" ≠ specDisplayNameAfterSep "a / b / c" := by
  decide

/-- C3 (amended): if the raw map name does not contain the separator `" / "`
it is returned unchanged; if it does, the result is the field between the
first occurrence and the next occurrence of the separator (the whole remainder
when the separator occurs once).  `"Customs / 海关"` derives to `"海关"` and
`"Factory"` is returned unchanged. -/
theorem C3_display_name_amended :
    (∀ s : String, hasInfixB mapSep s.data = false → getMapDisplayName s = s) ∧
    (∀ s : String, hasInfixB mapSep s.data = true →
      ∃ pre rest, s.data = pre ++ mapSep ++ rest ∧ hasInfixB mapSep pre = false ∧
        getMapDisplayName s = String.mk (takeBeforeFirstSep mapSep rest)) ∧
    getMapDisplayName "Customs / 海关" = "海关" ∧
    getMapDisplayName "Factory" = "Factory" := by
  refine ⟨?_, ?_, by decide, by decide⟩
  · intro s h
    unfold getMapDisplayName
    rw [dropAfterFirstSep_eq_none_of_hasInfixB_false h]
  · intro s h
    obtain ⟨rest, hrest⟩ := dropAfterFirstSep_eq_some_of_hasInfixB_true (by decide) h
    obtain ⟨pre, h1, h2⟩ := dropAfterFirstSep_decomp (by decide) hrest
    refine ⟨pre, rest, by simpa using h1, h2, ?_⟩
    unfold getMapDisplayName
    rw [hrest]

/-- Witness for C3: the amended theorem applied at the concrete input
`"Factory"`, whose character list does not contain the separator. -/
theorem C3_witness :
    hasInfixB mapSep ("Factory" : String).data = false ∧
    getMapDisplayName "Factory" = "Factory" :=
  ⟨by decide, C3_display_name_amended.1 "Factory" (by decide)⟩

lemma listLtB_irrefl : ∀ l : List Char, listLtB l l = false := by
  intro l
  induction l with
  | nil => rfl
  | cons a as ih => simp [listLtB, ih]

lemma listLtB_cons_iff (a b : Char) (as bs : List Char) :
    listLtB (a :: as) (b :: bs) = true ↔
      a.toNat < b.toNat ∨ (a.toNat = b.toNat ∧ listLtB as bs = true) := by
  by_cases h1 : a.toNat < b.toNat
  · simp [listLtB, h1]
  · by_cases h2 : b.toNat < a.toNat
    · constructor
      · intro hlt
        simp [listLtB, h1, h2] at hlt
      · rintro (h | ⟨h, -⟩) <;> omega
    · have heq : a.toNat = b.toNat := by omega
      simp [listLtB, h1, h2, heq]

lemma listLtB_trans :
    ∀ (a b c : List Char), listLtB a b = true → listLtB b c = true →
      listLtB a c = true := by
  intro a
  induction a with
  | nil =>
    intro b c h1 h2
    cases b <;> cases c <;> simp_all [listLtB]
  | cons x xs ih =>
    intro b c h1 h2
    cases b with
    | nil => simp [listLtB] at h1
    | cons y ys =>
      cases c with
      | nil => simp [listLtB] at h2
      | cons z zs =>
        rw [listLtB_cons_iff] at h1 h2 ⊢
        rcases h1 with h1 | ⟨e1, t1⟩
        · rcases h2 with h2 | ⟨e2, t2⟩
          · exact Or.inl (by omega)
          · exact Or.inl (by omega)
        · rcases h2 with h2 | ⟨e2, t2⟩
          · exact Or.inl (by omega)
          · exact Or.inr ⟨by omega, ih ys zs t1 t2⟩

lemma charEq_of_toNat_eq {a b : Char} (h : a.toNat = b.toNat) : a = b := by
  have h1 := Char.ofNat_toNat a
  have h2 := Char.ofNat_toNat b
  rw [← h1, ← h2, h]

lemma listLtB_connex :
    ∀ (a b : List Char), listLtB a b = true ∨ listLtB b a = true ∨ a = b := by
  intro a
  induction a with
  | nil =>
    intro b
    cases b with
    | nil => exact Or.inr (Or.inr rfl)
    | cons y ys => exact Or.inl (by simp [listLtB])
  | cons x xs ih =>
    intro b
    cases b with
    | nil => exact Or.inr (Or.inl (by simp [listLtB]))
    | cons y ys =>
      by_cases h1 : x.toNat < y.toNat
      · exact Or.inl ((listLtB_cons_iff x y xs ys).mpr (Or.inl h1))
      · by_cases h2 : y.toNat < x.toNat
        · exact Or.inr (Or.inl ((listLtB_cons_iff y x ys xs).mpr (Or.inl h2)))
        · have heq : x = y := charEq_of_toNat_eq (by omega)
          rcases ih ys with h | h | h
          · exact Or.inl ((listLtB_cons_iff x y xs ys).mpr (Or.inr ⟨by omega, h⟩))
          · exact Or.inr (Or.inl
              ((listLtB_cons_iff y x ys xs).mpr (Or.inr ⟨by omega, h⟩)))
          · exact Or.inr (Or.inr (by rw [heq, h]))

lemma strLtB_irrefl (s : String) : strLtB s s = false := listLtB_irrefl s.data

lemma strLtB_trans {a b c : String} (h1 : strLtB a b = true)
    (h2 : strLtB b c = true) : strLtB a c = true :=
  listLtB_trans a.data b.data c.data h1 h2

lemma strLtB_asymm {a b : String} (h : strLtB a b = true) : strLtB b a = false := by
  by_contra hc
  rw [Bool.not_eq_false] at hc
  have := strLtB_trans h hc
  rw [strLtB_irrefl] at this
  exact absurd this (by simp)

lemma strLtB_connex (a b : String) :
    strLtB a b = true ∨ strLtB b a = true ∨ a = b := by
  rcases listLtB_connex a.data b.data with h | h | h
  · exact Or.inl h
  · exact Or.inr (Or.inl h)
  · refine Or.inr (Or.inr ?_)
    obtain ⟨da⟩ := a
    obtain ⟨db⟩ := b
    exact congrArg String.mk (by simpa using h)

/-- One record of the upstream feed.  The code reads `record.get("map", "")`
and `record.get("update_time", "")`, so a missing key is the empty string. -/
structure Rec where
  map : String
  update_time : String
deriving DecidableEq

/-- The decoded upstream payload `{"PVP": [...], "PVE": [...]}`; the code reads
`data.get("PVP", [])` (or guards with `"PVP" in data`), so a missing key is the
empty list. -/
structure RawFeed where
  PVP : List Rec
  PVE : List Rec
deriving DecidableEq

/-- Python `dict` lookup (`d[key]` / `key in d`) on an insertion-ordered
association list. -/
def dictLookup : List (String × String) → String → Option String
  | [], _ => none
  | (k, v) :: rest, key => if k = key then some v else dictLookup rest key

/-- Python `dict` assignment `d[key] = v`: overwrites in place when the key is
present, appends otherwise (insertion order preserved, as in CPython). -/
def dictInsert : List (String × String) → String → String → List (String × String)
  | [], key, v => [(key, v)]
  | (k, w) :: rest, key, v =>
    if k = key then (key, v) :: rest else (k, w) :: dictInsert rest key v

/-- Loop body of `_process_mode_data` (`main.py` lines 84-93): records with an
empty map name or timestamp are skipped; otherwise the entry for the display
name is created, or overwritten when the incoming timestamp is lexicographically
greater (`update_time > latest_data[display_name]`). -/
def lexStep (latest : List (String × String)) (r : Rec) : List (String × String) :=
  if r.map ≠ "" ∧ r.update_time ≠ "" then
    match dictLookup latest (getMapDisplayName r.map) with
    | none => dictInsert latest (getMapDisplayName r.map) r.update_time
    | some old =>
      if strLtB old r.update_time then
        dictInsert latest (getMapDisplayName r.map) r.update_time
      else latest
  else latest

/-- `_process_mode_data` (`main.py` lines 80-95). -/
def processModeData (records : List Rec) : List (String × String) :=
  records.foldl lexStep []

/-- `_analyze_goons_location` (`main.py` lines 97-105): `if not data` returns
two empty mappings, otherwise both modes are reconciled independently. -/
def analyzeGoonsLocation (data : Option RawFeed) :
    List (String × String) × List (String × String) :=
  match data with
  | none => ([], [])
  | some feed => (processModeData feed.PVP, processModeData feed.PVE)

/-- The timestamps of the valid records (non-empty map name and timestamp) of
one mode whose derived display name is `k`, in input order. -/
def timesOf (k : String) (records : List Rec) : List String :=
  (records.filter fun r =>
    decide (r.map ≠ "" ∧ r.update_time ≠ "" ∧ getMapDisplayName r.map = k)).map
    Rec.update_time

/-- The greater of two timestamps under the latest-wins (Python string)
comparison. -/
def maxS (a b : String) : String := if strLtB a b then b else a

/-- Fold of `maxS` over a timestamp list starting from an optional value. -/
def optMax (o : Option String) (l : List String) : Option String :=
  l.foldl (fun acc t => match acc with | none => some t | some m => some (maxS m t)) o

lemma dictLookup_dictInsert (d : List (String × String)) (k v key : String) :
    dictLookup (dictInsert d k v) key =
      if k = key then some v else dictLookup d key := by
  induction d with
  | nil => simp [dictInsert, dictLookup]
  | cons p rest ih =>
    obtain ⟨k', w⟩ := p
    by_cases h1 : k' = k
    · subst h1
      by_cases h2 : k' = key <;> simp [dictInsert, dictLookup, h2]
    · by_cases h2 : k' = key
      · have h3 : ¬ k = key := fun hh => h1 (h2.trans hh.symm)
        have h4 : ¬ key = k := fun hh => h3 hh.symm
        simp [dictInsert, dictLookup, h1, h2, h3, h4]
      · simp [dictInsert, dictLookup, h1, h2, ih]

lemma optMax_none_cons (u : String) (l : List String) :
    optMax none (u :: l) = optMax (some u) l := rfl

lemma optMax_some_cons (m u : String) (l : List String) :
    optMax (some m) (u :: l) = optMax (some (maxS m u)) l := rfl

lemma optMax_some_ex :
    ∀ (l : List String) (m : String), ∃ t, optMax (some m) l = some t := by
  intro l
  induction l with
  | nil => exact fun m => ⟨m, rfl⟩
  | cons u l ih =>
    intro m
    rw [optMax_some_cons]
    exact ih (maxS m u)

lemma maxS_cases (a b : String) : maxS a b = a ∨ maxS a b = b := by
  unfold maxS
  split
  · exact Or.inr rfl
  · exact Or.inl rfl

lemma strLtB_lt_maxS_left {t m : String} (u : String) (h : strLtB t m = true) :
    strLtB t (maxS m u) = true := by
  unfold maxS
  split
  · next hmu => exact strLtB_trans h hmu
  · exact h

lemma strLtB_lt_maxS_right {t u : String} (m : String) (h : strLtB t u = true) :
    strLtB t (maxS m u) = true := by
  unfold maxS
  split
  · exact h
  · next hmu =>
    rcases strLtB_connex m u with hc | hc | hc
    · exact absurd hc (by simp [hmu])
    · exact strLtB_trans h hc
    · rw [← hc] at h
      exact h

lemma optMax_mem :
    ∀ (l : List String) (m t : String), optMax (some m) l = some t →
      t = m ∨ t ∈ l := by
  intro l
  induction l with
  | nil =>
    intro m t h
    simp only [optMax, List.foldl_nil, Option.some.injEq] at h
    exact Or.inl h.symm
  | cons u l ih =>
    intro m t h
    rw [optMax_some_cons] at h
    rcases ih (maxS m u) t h with h1 | h1
    · rcases maxS_cases m u with h2 | h2
      · exact Or.inl (h1.trans h2)
      · exact Or.inr (by simp [h1.trans h2])
    · exact Or.inr (List.mem_cons_of_mem u h1)

lemma optMax_ge :
    ∀ (l : List String) (m t : String), optMax (some m) l = some t →
      strLtB t m = false ∧ ∀ x ∈ l, strLtB t x = false := by
  intro l
  induction l with
  | nil =>
    intro m t h
    simp only [optMax, List.foldl_nil, Option.some.injEq] at h
    subst h
    exact ⟨strLtB_irrefl m, by simp⟩
  | cons u l ih =>
    intro m t h
    rw [optMax_some_cons] at h
    obtain ⟨h1, h2⟩ := ih (maxS m u) t h
    have hm : strLtB t m = false := by
      by_contra hc
      rw [Bool.not_eq_false] at hc
      rw [strLtB_lt_maxS_left u hc] at h1
      exact absurd h1 (by simp)
    have hu : strLtB t u = false := by
      by_contra hc
      rw [Bool.not_eq_false] at hc
      rw [strLtB_lt_maxS_right m hc] at h1
      exact absurd h1 (by simp)
    refine ⟨hm, ?_⟩
    intro x hx
    rcases List.mem_cons.mp hx with rfl | hx
    · exact hu
    · exact h2 x hx

lemma optMax_none_eq_none (l : List String) : optMax none l = none ↔ l = [] := by
  cases l with
  | nil => simp [optMax]
  | cons u l =>
    rw [optMax_none_cons]
    obtain ⟨t, ht⟩ := optMax_some_ex l u
    simp [ht]

lemma optMax_none_spec {l : List String} {t : String}
    (h : optMax none l = some t) :
    t ∈ l ∧ ∀ x ∈ l, strLtB t x = false := by
  cases l with
  | nil => simp [optMax] at h
  | cons u l =>
    rw [optMax_none_cons] at h
    obtain ⟨h1, h2⟩ := optMax_ge l u t h
    refine ⟨?_, ?_⟩
    · rcases optMax_mem l u t h with h3 | h3
      · rw [h3]
        exact List.mem_cons_self u l
      · exact List.mem_cons_of_mem u h3
    · intro x hx
      rcases List.mem_cons.mp hx with rfl | hx
      · exact h1
      · exact h2 x hx

lemma dictLookup_lexStep_self (acc : List (String × String)) (r : Rec)
    (hv : r.map ≠ "" ∧ r.update_time ≠ "") :
    dictLookup (lexStep acc r) (getMapDisplayName r.map) =
      match dictLookup acc (getMapDisplayName r.map) with
      | none => some r.update_time
      | some m => some (maxS m r.update_time) := by
  unfold lexStep
  rw [if_pos hv]
  cases hl : dictLookup acc (getMapDisplayName r.map) with
  | none => simp [dictLookup_dictInsert]
  | some old =>
    by_cases hlt : strLtB old r.update_time = true
    · simp [hlt, dictLookup_dictInsert, maxS]
    · rw [Bool.not_eq_true] at hlt
      simp [hlt, hl, maxS]

lemma dictLookup_lexStep_other (acc : List (String × String)) (r : Rec)
    (key : String) (hk : getMapDisplayName r.map ≠ key) :
    dictLookup (lexStep acc r) key = dictLookup acc key := by
  unfold lexStep
  by_cases hv : r.map ≠ "" ∧ r.update_time ≠ ""
  · rw [if_pos hv]
    cases hl : dictLookup acc (getMapDisplayName r.map) with
    | none => rw [dictLookup_dictInsert, if_neg hk]
    | some old =>
      by_cases hlt : strLtB old r.update_time = true
      · simp only [hlt, if_true]
        rw [dictLookup_dictInsert, if_neg hk]
      · rw [Bool.not_eq_true] at hlt
        simp [hlt]
  · rw [if_neg hv]

lemma dictLookup_foldl_lexStep :
    ∀ (records : List Rec) (acc : List (String × String)) (k : String),
      dictLookup (records.foldl lexStep acc) k =
        optMax (dictLookup acc k) (timesOf k records) := by
  intro records
  induction records with
  | nil =>
    intro acc k
    rfl
  | cons r rs ih =>
    intro acc k
    rw [List.foldl_cons, ih]
    by_cases hv : r.map ≠ "" ∧ r.update_time ≠ ""
    · by_cases hk : getMapDisplayName r.map = k
      · have ht : timesOf k (r :: rs) = r.update_time :: timesOf k rs := by
          simp [timesOf, List.filter_cons, hv.1, hv.2, hk]
        rw [ht]
        have hs := dictLookup_lexStep_self acc r hv
        rw [hk] at hs
        cases hl : dictLookup acc k with
        | none =>
          rw [hl] at hs
          rw [hs, optMax_none_cons]
        | some m =>
          rw [hl] at hs
          rw [hs, optMax_some_cons]
      · have ht : timesOf k (r :: rs) = timesOf k rs := by
          simp [timesOf, List.filter_cons, hk]
        rw [ht, dictLookup_lexStep_other acc r k hk]
    · have hv' : ¬ (r.map ≠ "" ∧ r.update_time ≠ "" ∧ getMapDisplayName r.map = k) :=
        fun hc => hv ⟨hc.1, hc.2.1⟩
      have ht : timesOf k (r :: rs) = timesOf k rs := by
        simp [timesOf, List.filter_cons, hv']
      rw [ht]
      unfold lexStep
      rw [if_neg hv]

/-- The property claim C1 asserts of one mode's reconciled mapping `m` over
the record list `records`: `k` is a key exactly when some record with
non-empty map name and timestamp derives to it, and the stored value is one of
that key's timestamps and not less than any of them — the latest under the
latest-wins comparison. -/
def LatestSpec (m : List (String × String)) (records : List Rec) (k : String) :
    Prop :=
  ((dictLookup m k).isSome ↔
    ∃ r, r ∈ records ∧ r.map ≠ "" ∧ r.update_time ≠ "" ∧
      getMapDisplayName r.map = k) ∧
  ∀ t, dictLookup m k = some t →
    (∃ r, r ∈ records ∧ r.map ≠ "" ∧ r.update_time ≠ "" ∧
      getMapDisplayName r.map = k ∧ r.update_time = t) ∧
    ∀ r, r ∈ records → r.map ≠ "" → r.update_time ≠ "" →
      getMapDisplayName r.map = k → strLtB t r.update_time = false

lemma mem_timesOf {x k : String} {records : List Rec} :
    x ∈ timesOf k records ↔
      ∃ r, r ∈ records ∧ r.map ≠ "" ∧ r.update_time ≠ "" ∧
        getMapDisplayName r.map = k ∧ r.update_time = x := by
  simp only [timesOf, List.mem_map, List.mem_filter, decide_eq_true_eq]
  constructor
  · rintro ⟨r, ⟨hr, h1, h2, h3⟩, h4⟩
    exact ⟨r, hr, h1, h2, h3, h4⟩
  · rintro ⟨r, hr, h1, h2, h3, h4⟩
    exact ⟨r, ⟨hr, h1, h2, h3⟩, h4⟩

lemma latestSpec_processModeData (records : List Rec) (k : String) :
    LatestSpec (processModeData records) records k := by
  have H : dictLookup (processModeData records) k =
      optMax none (timesOf k records) :=
    dictLookup_foldl_lexStep records [] k
  constructor
  · rw [H]
    constructor
    · intro hs
      cases hopt : optMax none (timesOf k records) with
      | none =>
        rw [hopt] at hs
        simp at hs
      | some t =>
        obtain ⟨hmem, -⟩ := optMax_none_spec hopt
        obtain ⟨r, hr, h1, h2, h3, -⟩ := mem_timesOf.mp hmem
        exact ⟨r, hr, h1, h2, h3⟩
    · rintro ⟨r, hr, h1, h2, h3⟩
      have hmem : r.update_time ∈ timesOf k records :=
        mem_timesOf.mpr ⟨r, hr, h1, h2, h3, rfl⟩
      have hne : timesOf k records ≠ [] := List.ne_nil_of_mem hmem
      cases hopt : optMax none (timesOf k records) with
      | none => exact absurd ((optMax_none_eq_none _).mp hopt) hne
      | some t => simp
  · intro t ht
    rw [H] at ht
    obtain ⟨hmem, hge⟩ := optMax_none_spec ht
    obtain ⟨r, hr, h1, h2, h3, h4⟩ := mem_timesOf.mp hmem
    refine ⟨⟨r, hr, h1, h2, h3, h4⟩, ?_⟩
    intro r' hr' h1' h2' h3'
    exact hge r'.update_time (mem_timesOf.mpr ⟨r', hr', h1', h2', h3', rfl⟩)

/-- C1: for every raw feed and each mode (PVP and PVE), reconciliation
(`_analyze_goons_location` / `_process_mode_data` in `main.py`) returns a
mapping whose keys are exactly the display names derived from that mode's
records with a non-empty map name and timestamp, and whose value per key is
the greatest such timestamp under the latest-wins comparison. -/
theorem C1_reconcile_exact_latest (feed : RawFeed) (k : String) :
    LatestSpec (analyzeGoonsLocation (some feed)).1 feed.PVP k ∧
    LatestSpec (analyzeGoonsLocation (some feed)).2 feed.PVE k :=
  ⟨latestSpec_processModeData feed.PVP k, latestSpec_processModeData feed.PVE k⟩

/-- A concrete feed with two PVP observations of the same map. -/
def feedW : RawFeed :=
  ⟨[⟨"Customs / 海关", "2024-01-01 09:00:00"⟩,
    ⟨"Customs / 海关", "2024-01-01 10:00:00"⟩], []⟩

/-- Witness for C1: at the concrete feed `feedW`, the key `"海关"` is present
and its stored timestamp is not less than `"2024-01-01 09:00:00"`. -/
theorem C1_witness :
    (dictLookup (analyzeGoonsLocation (some feedW)).1 "海关").isSome ∧
    ∀ t, dictLookup (analyzeGoonsLocation (some feedW)).1 "海关" = some t →
      strLtB t "2024-01-01 09:00:00" = false := by
  obtain ⟨h1, h2⟩ := (C1_reconcile_exact_latest feedW "海关").1
  refine ⟨?_, ?_⟩
  · exact h1.mpr ⟨⟨"Customs / 海关", "2024-01-01 09:00:00"⟩, by decide, by decide,
      by decide, by decide⟩
  · intro t ht
    exact (h2 t ht).2 ⟨"Customs / 海关", "2024-01-01 09:00:00"⟩ (by decide)
      (by decide) (by decide) (by decide)

/-- Numeric value of a digit character. -/
def dval (c : Char) : Nat := c.toNat - 48

/-- The character for a digit value. -/
def digitChar (n : Nat) : Char := Char.ofNat (48 + n)

/-- A parsed `datetime` value: the six fields produced by
`datetime.strptime(_, "%Y-%m-%d %H:%M:%S")`. -/
structure TimeTuple where
  year : Nat
  month : Nat
  day : Nat
  hour : Nat
  minute : Nat
  second : Nat
deriving DecidableEq

/-- Python `datetime` comparison (`new_time > old_time`): lexicographic on
(year, month, day, hour, minute, second). -/
def TimeTuple.ltB (a b : TimeTuple) : Bool :=
  decide (a.year < b.year) || (decide (a.year = b.year) &&
    (decide (a.month < b.month) || (decide (a.month = b.month) &&
      (decide (a.day < b.day) || (decide (a.day = b.day) &&
        (decide (a.hour < b.hour) || (decide (a.hour = b.hour) &&
          (decide (a.minute < b.minute) || (decide (a.minute = b.minute) &&
            decide (a.second < b.second))))))))))

/-- Two-digit zero-padded rendering (`%m`, `%d`, `%H`, `%M`, `%S`). -/
def render2 (n : Nat) : List Char := [digitChar (n / 10), digitChar (n % 10)]

/-- Four-digit zero-padded rendering (`%Y`). -/
def render4 (n : Nat) : List Char :=
  [digitChar (n / 1000), digitChar (n / 100 % 10), digitChar (n / 10 % 10),
    digitChar (n % 10)]

/-- The characters of the strftime rendering `"%Y-%m-%d %H:%M:%S"`. -/
def renderList (t : TimeTuple) : List Char :=
  render4 t.year ++ '-' :: (render2 t.month ++ '-' :: (render2 t.day ++ ' ' ::
    (render2 t.hour ++ ':' :: (render2 t.minute ++ ':' :: render2 t.second))))

/-- Zero-padded rendering of a time tuple in the upstream (API) format. -/
def renderTime (t : TimeTuple) : String := String.mk (renderList t)

/-- `dt.strftime("%m-%d %H:%M:%S")`: the display rendering used by
`_format_time`. -/
def renderDisplay (t : TimeTuple) : String :=
  String.mk (render2 t.month ++ '-' :: (render2 t.day ++ ' ' ::
    (render2 t.hour ++ ':' :: (render2 t.minute ++ ':' :: render2 t.second))))

/-- Gregorian leap-year rule used by Python's `datetime` validation. -/
def isLeap (y : Nat) : Bool := y % 4 == 0 && (y % 100 != 0 || y % 400 == 0)

/-- Number of days of a month, as validated by the `datetime` constructor. -/
def daysInMonth (y m : Nat) : Nat :=
  if m = 2 then (if isLeap y then 29 else 28)
  else if m = 4 ∨ m = 6 ∨ m = 9 ∨ m = 11 then 30
  else 31

/-- `%Y`: exactly four digits. -/
def read4Digits : List Char → Option (Nat × List Char)
  | c1 :: c2 :: c3 :: c4 :: rest =>
    if c1.isDigit && c2.isDigit && c3.isDigit && c4.isDigit then
      some (1000 * dval c1 + 100 * dval c2 + 10 * dval c3 + dval c4, rest)
    else none
  | _ => none

/-- `%m`/`%d`/`%H`/`%M`/`%S`: one or two digits, read greedily.  (Python's
`strptime` regex prefers two digits; backtracking to one digit can never help
here because the following format character is never a digit.) -/
def read12Digits : List Char → Option (Nat × List Char)
  | [] => none
  | [c1] => if c1.isDigit then some (dval c1, []) else none
  | c1 :: c2 :: rest =>
    if c1.isDigit then
      if c2.isDigit then some (10 * dval c1 + dval c2, rest)
      else some (dval c1, c2 :: rest)
    else none

/-- A literal non-whitespace character of the format. -/
def expectChar (ch : Char) : List Char → Option (List Char)
  | c :: rest => if c = ch then some rest else none
  | [] => none

def skipWs : List Char → List Char
  | [] => []
  | c :: rest => if c.isWhitespace then skipWs rest else c :: rest

/-- A literal whitespace in a `strptime` format matches one or more whitespace
characters. -/
def expectWs : List Char → Option (List Char)
  | c :: rest => if c.isWhitespace then some (skipWs rest) else none
  | [] => none

/-- `datetime.strptime(time_str, "%Y-%m-%d %H:%M:%S")`, returning `none` where
Python raises (no regex match, unconverted trailing data, or a field rejected
by the `datetime` constructor: year outside 1..9999, bad month/day/hour/minute/
second — the `%S` regex also admits the leap seconds 60/61, which the
constructor then rejects, so they are folded into the `≤ 59` check). -/
def parseTimeTuple (s : String) : Option TimeTuple := do
  let (y, r1) ← read4Digits s.data
  let r2 ← expectChar '-' r1
  let (mo, r3) ← read12Digits r2
  let r4 ← expectChar '-' r3
  let (d, r5) ← read12Digits r4
  let r6 ← expectWs r5
  let (h, r7) ← read12Digits r6
  let r8 ← expectChar ':' r7
  let (mi, r9) ← read12Digits r8
  let r10 ← expectChar ':' r9
  let (se, r11) ← read12Digits r10
  if r11 = [] ∧ 1 ≤ y ∧ 1 ≤ mo ∧ mo ≤ 12 ∧ 1 ≤ d ∧ d ≤ daysInMonth y mo ∧
      h ≤ 23 ∧ mi ≤ 59 ∧ se ≤ 59 then
    some ⟨y, mo, d, h, mi, se⟩
  else none

/-- `_format_time` (`main.py` lines 72-78 and `goons/main.py` lines 259-267):
re-render a parseable timestamp as `"%m-%d %H:%M:%S"`, return the input
unchanged when parsing raises. -/
def formatTime (time_str : String) : String :=
  match parseTimeTuple time_str with
  | some t => renderDisplay t
  | none => time_str

/-- Field bounds under which a tuple renders to a parseable canonical
timestamp (ranges accepted by the `datetime` constructor). -/
def ValidTuple (t : TimeTuple) : Prop :=
  1 ≤ t.year ∧ t.year ≤ 9999 ∧ 1 ≤ t.month ∧ t.month ≤ 12 ∧ 1 ≤ t.day ∧
    t.day ≤ daysInMonth t.year t.month ∧ t.hour ≤ 23 ∧ t.minute ≤ 59 ∧
    t.second ≤ 59

/-- A well-formed `"YYYY-MM-DD HH:MM:SS"` string: the zero-padded rendering of
an in-range time tuple. -/
def WellFormedTime (s : String) : Prop :=
  ∃ t : TimeTuple, ValidTuple t ∧ s = renderTime t

instance (t : TimeTuple) : Decidable (ValidTuple t) := by
  unfold ValidTuple
  infer_instance

lemma digitChar_isDigit : ∀ n, n < 10 → (digitChar n).isDigit = true := by decide

lemma dval_digitChar : ∀ n, n < 10 → dval (digitChar n) = n := by decide

lemma digitChar_not_ws : ∀ n, n < 10 → (digitChar n).isWhitespace = false := by
  decide

lemma digitChar_toNat_lt_iff :
    ∀ a, a < 10 → ∀ b, b < 10 →
      ((digitChar a).toNat < (digitChar b).toNat ↔ a < b) := by decide

lemma digitChar_toNat_eq_iff :
    ∀ a, a < 10 → ∀ b, b < 10 →
      ((digitChar a).toNat = (digitChar b).toNat ↔ a = b) := by decide

lemma digitChar_eq_iff :
    ∀ a, a < 10 → ∀ b, b < 10 → (digitChar a = digitChar b ↔ a = b) := by decide

lemma daysInMonth_le (y m : Nat) : daysInMonth y m ≤ 31 := by
  unfold daysInMonth
  split
  · split <;> omega
  · split <;> omega

lemma read4Digits_render4 (n : Nat) (hn : n ≤ 9999) (rest : List Char) :
    read4Digits (render4 n ++ rest) = some (n, rest) := by
  have h1 := digitChar_isDigit (n / 1000) (by omega)
  have h2 := digitChar_isDigit (n / 100 % 10) (by omega)
  have h3 := digitChar_isDigit (n / 10 % 10) (by omega)
  have h4 := digitChar_isDigit (n % 10) (by omega)
  have v1 := dval_digitChar (n / 1000) (by omega)
  have v2 := dval_digitChar (n / 100 % 10) (by omega)
  have v3 := dval_digitChar (n / 10 % 10) (by omega)
  have v4 := dval_digitChar (n % 10) (by omega)
  simp only [render4, List.cons_append, List.nil_append, read4Digits, h1, h2, h3,
    h4, Bool.and_self, Bool.and_true, Bool.true_and, if_true, v1, v2, v3, v4,
    Option.some.injEq, Prod.mk.injEq]
  exact ⟨by omega, trivial⟩

lemma read12Digits_render2 (n : Nat) (hn : n ≤ 99) (rest : List Char) :
    read12Digits (render2 n ++ rest) = some (n, rest) := by
  have h1 := digitChar_isDigit (n / 10) (by omega)
  have h2 := digitChar_isDigit (n % 10) (by omega)
  have v1 := dval_digitChar (n / 10) (by omega)
  have v2 := dval_digitChar (n % 10) (by omega)
  simp only [render2, List.cons_append, List.nil_append, read12Digits, h1, h2,
    if_true, v1, v2, Option.some.injEq, Prod.mk.injEq]
  exact ⟨by omega, trivial⟩

lemma expectChar_self (ch : Char) (rest : List Char) :
    expectChar ch (ch :: rest) = some rest := by
  simp [expectChar]

lemma expectWs_space_render2 (n : Nat) (hn : n ≤ 99) (rest : List Char) :
    expectWs (' ' :: (render2 n ++ rest)) = some (render2 n ++ rest) := by
  have h1 := digitChar_not_ws (n / 10) (by omega)
  have hs : (' ' : Char).isWhitespace = true := by decide
  simp only [expectWs, hs, if_true, render2, List.cons_append, skipWs, h1,
    Bool.false_eq_true, if_false]
  simp

lemma parseTimeTuple_renderTime {t : TimeTuple} (ht : ValidTuple t) :
    parseTimeTuple (renderTime t) = some t := by
  obtain ⟨y, mo, d, h, mi, se⟩ := t
  obtain ⟨hy1', hy2', hm1', hm2', hd1', hd2', hh', hmi', hse'⟩ := ht
  have hy1 : 1 ≤ y := hy1'
  have hy2 : y ≤ 9999 := hy2'
  have hm1 : 1 ≤ mo := hm1'
  have hm2 : mo ≤ 12 := hm2'
  have hd1 : 1 ≤ d := hd1'
  have hd2 : d ≤ daysInMonth y mo := hd2'
  have hh : h ≤ 23 := hh'
  have hmi : mi ≤ 59 := hmi'
  have hse : se ≤ 59 := hse'
  have hdm := daysInMonth_le y mo
  have L4 := read4Digits_render4 y (by omega)
  have Lmo := read12Digits_render2 mo (by omega)
  have Ld := read12Digits_render2 d (by omega)
  have Lh := read12Digits_render2 h (by omega)
  have Lmi := read12Digits_render2 mi (by omega)
  have Lse : read12Digits (render2 se) = some (se, []) := by
    have := read12Digits_render2 se (by omega) []
    simpa using this
  have LWs := expectWs_space_render2 h (by omega)
  have hdata : (renderTime ⟨y, mo, d, h, mi, se⟩).data =
      renderList ⟨y, mo, d, h, mi, se⟩ := rfl
  simp only [parseTimeTuple, hdata, renderList]
  simp only [L4, Option.bind_eq_bind, Option.some_bind, expectChar_self, Lmo, Ld,
    LWs, Lh, Lmi, Lse]
  rw [if_pos ⟨trivial, hy1, hm1, hm2, hd1, hd2, hh, hmi, hse⟩]

lemma listLtB_cons_same (c : Char) (u v : List Char) :
    listLtB (c :: u) (c :: v) = listLtB u v := by
  simp [listLtB]

lemma listLtB_append_iff :
    ∀ (x y u v : List Char), x.length = y.length →
      (listLtB (x ++ u) (y ++ v) = true ↔
        listLtB x y = true ∨ (x = y ∧ listLtB u v = true)) := by
  intro x
  induction x with
  | nil =>
    intro y u v hlen
    cases y with
    | nil => simp [listLtB]
    | cons b bs => simp at hlen
  | cons a as ih =>
    intro y u v hlen
    cases y with
    | nil => simp at hlen
    | cons b bs =>
      simp only [List.length_cons] at hlen
      have hlen2 : as.length = bs.length := by omega
      simp only [List.cons_append]
      rw [listLtB_cons_iff, listLtB_cons_iff]
      constructor
      · rintro (hab | ⟨hab, htail⟩)
        · exact Or.inl (Or.inl hab)
        · rcases (ih bs u v hlen2).mp htail with hio | ⟨heq, hu⟩
          · exact Or.inl (Or.inr ⟨hab, hio⟩)
          · exact Or.inr ⟨by rw [charEq_of_toNat_eq hab, heq], hu⟩
      · rintro ((hab | ⟨hab, htail⟩) | ⟨heq, hu⟩)
        · exact Or.inl hab
        · exact Or.inr ⟨hab, (ih bs u v hlen2).mpr (Or.inl htail)⟩
        · injection heq with h1 h2
          exact Or.inr ⟨by rw [h1], (ih bs u v hlen2).mpr (Or.inr ⟨h2, hu⟩)⟩

lemma listLtB_render4_append (a b : Nat) (u v : List Char) :
    (listLtB (render4 a ++ u) (render4 b ++ v) = true) ↔
      (listLtB (render4 a) (render4 b) = true ∨
        (render4 a = render4 b ∧ listLtB u v = true)) :=
  listLtB_append_iff (render4 a) (render4 b) u v rfl

lemma listLtB_render2_append (a b : Nat) (u v : List Char) :
    (listLtB (render2 a ++ u) (render2 b ++ v) = true) ↔
      (listLtB (render2 a) (render2 b) = true ∨
        (render2 a = render2 b ∧ listLtB u v = true)) :=
  listLtB_append_iff (render2 a) (render2 b) u v rfl

lemma render2_ltB_iff (a b : Nat) (ha : a ≤ 99) (hb : b ≤ 99) :
    (listLtB (render2 a) (render2 b) = true) ↔ a < b := by
  simp only [render2]
  rw [listLtB_cons_iff, listLtB_cons_iff]
  rw [digitChar_toNat_lt_iff _ (by omega) _ (by omega),
    digitChar_toNat_lt_iff _ (by omega) _ (by omega),
    digitChar_toNat_eq_iff _ (by omega) _ (by omega)]
  simp only [listLtB, Bool.false_eq_true, and_false, or_false]
  omega

lemma render2_eq_iff (a b : Nat) (ha : a ≤ 99) (hb : b ≤ 99) :
    render2 a = render2 b ↔ a = b := by
  simp only [render2, List.cons.injEq, and_true]
  rw [digitChar_eq_iff _ (by omega) _ (by omega),
    digitChar_eq_iff _ (by omega) _ (by omega)]
  omega

lemma render4_ltB_iff (a b : Nat) (ha : a ≤ 9999) (hb : b ≤ 9999) :
    (listLtB (render4 a) (render4 b) = true) ↔ a < b := by
  simp only [render4]
  rw [listLtB_cons_iff, listLtB_cons_iff, listLtB_cons_iff, listLtB_cons_iff]
  rw [digitChar_toNat_lt_iff _ (by omega) _ (by omega),
    digitChar_toNat_lt_iff _ (by omega) _ (by omega),
    digitChar_toNat_lt_iff _ (by omega) _ (by omega),
    digitChar_toNat_lt_iff _ (by omega) _ (by omega),
    digitChar_toNat_eq_iff _ (by omega) _ (by omega),
    digitChar_toNat_eq_iff _ (by omega) _ (by omega),
    digitChar_toNat_eq_iff _ (by omega) _ (by omega)]
  simp only [listLtB, Bool.false_eq_true, and_false, or_false]
  omega

lemma render4_eq_iff (a b : Nat) (ha : a ≤ 9999) (hb : b ≤ 9999) :
    render4 a = render4 b ↔ a = b := by
  simp only [render4, List.cons.injEq, and_true]
  rw [digitChar_eq_iff _ (by omega) _ (by omega),
    digitChar_eq_iff _ (by omega) _ (by omega),
    digitChar_eq_iff _ (by omega) _ (by omega),
    digitChar_eq_iff _ (by omega) _ (by omega)]
  omega

lemma renderList_ltB_iff {t u : TimeTuple} (ht : ValidTuple t)
    (hu : ValidTuple u) :
    (listLtB (renderList t) (renderList u) = true) ↔ TimeTuple.ltB t u = true := by
  obtain ⟨y, mo, d, h, mi, se⟩ := t
  obtain ⟨y', mo', d', h', mi', se'⟩ := u
  obtain ⟨ay1, ay2, am1, am2, ad1, ad2, ah, ami, ase⟩ := ht
  obtain ⟨by1, by2, bm1, bm2, bd1, bd2, bh, bmi, bse⟩ := hu
  have hy2 : y ≤ 9999 := ay2
  have hm2 : mo ≤ 12 := am2
  have hd2 : d ≤ daysInMonth y mo := ad2
  have hh : h ≤ 23 := ah
  have hmi : mi ≤ 59 := ami
  have hse : se ≤ 59 := ase
  have hy2' : y' ≤ 9999 := by2
  have hm2' : mo' ≤ 12 := bm2
  have hd2' : d' ≤ daysInMonth y' mo' := bd2
  have hh' : h' ≤ 23 := bh
  have hmi' : mi' ≤ 59 := bmi
  have hse' : se' ≤ 59 := bse
  have hdm := daysInMonth_le y mo
  have hdm' := daysInMonth_le y' mo'
  simp only [renderList, listLtB_render4_append, listLtB_cons_same,
    listLtB_render2_append]
  rw [render4_ltB_iff y y' (by omega) (by omega),
    render4_eq_iff y y' (by omega) (by omega),
    render2_ltB_iff mo mo' (by omega) (by omega),
    render2_eq_iff mo mo' (by omega) (by omega),
    render2_ltB_iff d d' (by omega) (by omega),
    render2_eq_iff d d' (by omega) (by omega),
    render2_ltB_iff h h' (by omega) (by omega),
    render2_eq_iff h h' (by omega) (by omega),
    render2_ltB_iff mi mi' (by omega) (by omega),
    render2_eq_iff mi mi' (by omega) (by omega),
    render2_ltB_iff se se' (by omega) (by omega)]
  simp only [TimeTuple.ltB, Bool.or_eq_true, Bool.and_eq_true, decide_eq_true_eq]

/-- Loop body of the per-mode reconciliation in `_analyze_goons_location`
(`goons/main.py` lines 294-312; the PVE loop at lines 316-334 is textually
identical): records with an empty map name or timestamp are skipped; a new
display name is inserted; on a collision both timestamps are parsed with
`datetime.strptime` and the greater `datetime` wins; when either parse raises,
the bare `except` overwrites unconditionally (last write wins). -/
def goonsStep (latest : List (String × String)) (r : Rec) :
    List (String × String) :=
  if r.map ≠ "" ∧ r.update_time ≠ "" then
    match dictLookup latest (getMapDisplayName r.map) with
    | none => dictInsert latest (getMapDisplayName r.map) r.update_time
    | some old =>
      match parseTimeTuple old, parseTimeTuple r.update_time with
      | some ot, some nt =>
        if TimeTuple.ltB ot nt then
          dictInsert latest (getMapDisplayName r.map) r.update_time
        else latest
      | _, _ => dictInsert latest (getMapDisplayName r.map) r.update_time
  else latest

/-- One mode's reconciliation loop of `_analyze_goons_location` in
`goons/main.py`. -/
def processModeDataGoons (records : List Rec) : List (String × String) :=
  records.foldl goonsStep []

/-- `_analyze_goons_location` (`goons/main.py` lines 281-336): empty data gives
two empty mappings, otherwise both modes are reconciled independently. -/
def analyzeGoonsLocationParsed (data : Option RawFeed) :
    List (String × String) × List (String × String) :=
  match data with
  | none => ([], [])
  | some feed => (processModeDataGoons feed.PVP, processModeDataGoons feed.PVE)

/-- C5: during reconciliation of one mode's record list in `goons/main.py`,
when a record's display name is already present in the output mapping and
either the stored or the incoming timestamp fails to parse in the fixed
format, the incoming timestamp overwrites the stored one unconditionally
(last write wins); no exception is raised — the step is a total function. -/
theorem C5_malformed_last_write_wins (latest : List (String × String)) (r : Rec)
    (old : String) (h1 : r.map ≠ "") (h2 : r.update_time ≠ "")
    (h3 : dictLookup latest (getMapDisplayName r.map) = some old)
    (h4 : parseTimeTuple old = none ∨ parseTimeTuple r.update_time = none) :
    dictLookup (goonsStep latest r) (getMapDisplayName r.map) =
      some r.update_time := by
  unfold goonsStep
  rw [if_pos ⟨h1, h2⟩]
  simp only [h3]
  rcases h4 with h4 | h4
  · simp only [h4]
    cases hn : parseTimeTuple r.update_time with
    | none => simp [dictLookup_dictInsert]
    | some nt => simp [dictLookup_dictInsert]
  · simp only [h4]
    cases ho : parseTimeTuple old with
    | none => simp [dictLookup_dictInsert]
    | some ot => simp [dictLookup_dictInsert]

/-- Witness for C5: a stored unparseable timestamp `"garbage"` is overwritten
by the incoming timestamp of a colliding record. -/
theorem C5_witness :
    dictLookup
      (goonsStep [("海关", "garbage")] ⟨"Customs / 海关", "2024-01-01 10:00:00"⟩)
      (getMapDisplayName "Customs / 海关") = some "2024-01-01 10:00:00" :=
  C5_malformed_last_write_wins [("海关", "garbage")]
    ⟨"Customs / 海关", "2024-01-01 10:00:00"⟩ "garbage" (by decide) (by decide)
    (by decide) (Or.inl (by decide))

lemma goonsStep_eq_lexStep (acc : List (String × String)) (r : Rec)
    (hr : WellFormedTime r.update_time)
    (hacc : ∀ k v, dictLookup acc k = some v → WellFormedTime v) :
    goonsStep acc r = lexStep acc r := by
  unfold goonsStep lexStep
  by_cases hv : r.map ≠ "" ∧ r.update_time ≠ ""
  · rw [if_pos hv, if_pos hv]
    cases hl : dictLookup acc (getMapDisplayName r.map) with
    | none => rfl
    | some old =>
      obtain ⟨tn, htn, hrn⟩ := hr
      obtain ⟨ot, hot, hro⟩ := hacc _ _ hl
      subst hro
      rw [hrn]
      dsimp only
      rw [parseTimeTuple_renderTime hot, parseTimeTuple_renderTime htn]
      have hiff := renderList_ltB_iff hot htn
      cases hb : TimeTuple.ltB ot tn with
      | true =>
        have hs : strLtB (renderTime ot) (renderTime tn) = true := hiff.mpr hb
        simp [hb, hs]
      | false =>
        have hs : strLtB (renderTime ot) (renderTime tn) = false := by
          cases hsb : strLtB (renderTime ot) (renderTime tn) with
          | false => rfl
          | true =>
            have hx : TimeTuple.ltB ot tn = true := hiff.mp hsb
            rw [hx] at hb
            exact absurd hb (by simp)
        simp [hb, hs]
  · rw [if_neg hv, if_neg hv]

lemma dictLookup_lexStep_wf (acc : List (String × String)) (r : Rec)
    (hr : WellFormedTime r.update_time)
    (hacc : ∀ k v, dictLookup acc k = some v → WellFormedTime v) :
    ∀ k v, dictLookup (lexStep acc r) k = some v → WellFormedTime v := by
  intro k v hkv
  unfold lexStep at hkv
  split at hkv
  · split at hkv
    · rw [dictLookup_dictInsert] at hkv
      split at hkv
      · cases hkv
        exact hr
      · exact hacc _ _ hkv
    · split at hkv
      · rw [dictLookup_dictInsert] at hkv
        split at hkv
        · cases hkv
          exact hr
        · exact hacc _ _ hkv
      · exact hacc _ _ hkv
  · exact hacc _ _ hkv

lemma foldl_goonsStep_eq_lexStep :
    ∀ (records : List Rec) (acc : List (String × String)),
      (∀ r ∈ records, WellFormedTime r.update_time) →
      (∀ k v, dictLookup acc k = some v → WellFormedTime v) →
      records.foldl goonsStep acc = records.foldl lexStep acc := by
  intro records
  induction records with
  | nil =>
    intro acc _ _
    rfl
  | cons r rs ih =>
    intro acc hrec hacc
    rw [List.foldl_cons, List.foldl_cons,
      goonsStep_eq_lexStep acc r (hrec r (by simp)) hacc]
    exact ih (lexStep acc r) (fun r' hr' => hrec r' (by simp [hr']))
      (dictLookup_lexStep_wf acc r (hrec r (by simp)) hacc)

/-- C6: on every record list whose timestamps are all well-formed
`"YYYY-MM-DD HH:MM:SS"` strings, the lexicographic string reconciliation of
`main.py` (`_process_mode_data`) and the parsed-`datetime` reconciliation of
`goons/main.py` (`_analyze_goons_location`) produce the same latest-by-map
mapping for that mode. -/
theorem C6_lex_datetime_agree (records : List Rec)
    (h : ∀ r ∈ records, WellFormedTime r.update_time) :
    processModeDataGoons records = processModeData records :=
  foldl_goonsStep_eq_lexStep records [] h
    (fun _ _ hkv => by simp [dictLookup] at hkv)

/-- Witness for C6: both reconciliations agree on a concrete two-record list
with well-formed timestamps. -/
theorem C6_witness :
    processModeDataGoons
      [⟨"Shoreline / 海岸线", "2024-06-01 08:00:00"⟩,
        ⟨"Shoreline / 海岸线", "2024-05-31 23:59:59"⟩] =
    processModeData
      [⟨"Shoreline / 海岸线", "2024-06-01 08:00:00"⟩,
        ⟨"Shoreline / 海岸线", "2024-05-31 23:59:59"⟩] := by
  apply C6_lex_datetime_agree
  intro r hr
  simp only [List.mem_cons, List.not_mem_nil, or_false] at hr
  rcases hr with rfl | rfl
  · exact ⟨⟨2024, 6, 1, 8, 0, 0⟩, by decide, by decide⟩
  · exact ⟨⟨2024, 5, 31, 23, 59, 59⟩, by decide, by decide⟩

/-- C10: `_format_time` is total: a string that parses in the API format
`"%Y-%m-%d %H:%M:%S"` is re-rendered from its parsed fields as
`"%m-%d %H:%M:%S"` (same instant, zero-padded); any other string is returned
unchanged (the `except` branch); in particular every canonical rendering of an
in-range tuple is re-rendered from exactly its own fields. -/
theorem C10_format_time_total :
    (∀ s : String, parseTimeTuple s = none → formatTime s = s) ∧
    (∀ (s : String) (t : TimeTuple), parseTimeTuple s = some t →
      formatTime s = renderDisplay t) ∧
    (∀ t : TimeTuple, ValidTuple t →
      formatTime (renderTime t) = renderDisplay t) := by
  refine ⟨?_, ?_, ?_⟩
  · intro s h
    unfold formatTime
    rw [h]
  · intro s t h
    unfold formatTime
    rw [h]
  · intro t ht
    unfold formatTime
    rw [parseTimeTuple_renderTime ht]

/-- Witness for C10: `"2024-06-01 08:00:00"` is re-rendered as
`"06-01 08:00:00"`. -/
theorem C10_witness : formatTime "2024-06-01 08:00:00" = "06-01 08:00:00" := by
  have h := C10_format_time_total.2.2 ⟨2024, 6, 1, 8, 0, 0⟩ (by decide)
  have he : ("2024-06-01 08:00:00" : String) = renderTime ⟨2024, 6, 1, 8, 0, 0⟩ := by
    decide
  rw [he, h]
  decide

/-- Python `str.lower()` (ASCII case folding, as `Char.toLower`; the
configured aliases here are ASCII or Chinese, on which this matches CPython
exactly). -/
def strToLower (s : String) : String := String.mk (s.data.map Char.toLower)

/-- Body of `_get_display_name_by_alias` (`goons/main.py` lines 218-224) after
`alias = alias.lower()`: the first table entry whose display name
(lower-cased) equals the query or whose alias list (lower-cased) contains
it. -/
def resolveLower (table : List (String × List String)) (a : String) :
    Option String :=
  (table.find? fun p =>
    (a == strToLower p.1) || (p.2.map strToLower).contains a).map Prod.fst

/-- `_get_display_name_by_alias` (`goons/main.py` lines 218-224). -/
def getDisplayNameByAlias (table : List (String × List String))
    (alias0 : String) : Option String :=
  resolveLower table (strToLower alias0)

/-- `default_aliases` (`goons/main.py` lines 177-187). -/
def defaultAliases : List (String × List String) :=
  [("海关", ["customs", "hg"]),
    ("森林", ["woods", "sl", "树林"]),
    ("立交桥", ["interchange", "ljq", "商场"]),
    ("海岸线", ["shoreline", "hx", "疗养院", "海滨"]),
    ("灯塔", ["lighthouse", "dt"]),
    ("街区", ["streets", "jq", "街道"]),
    ("工厂", ["factory", "gc"]),
    ("储备站", ["reserve", "cbz", "军事基地"]),
    ("实验室", ["lab", "sys"])]

/-- C7 (counterexample): resolving a configured display name need not yield
that name itself: with the display name `"B"` configured, and `"b"` configured
as an alias of the earlier entry `"A"`, resolving the display name `"B"`
yields `"A"`. -/
theorem C7_counterexample :
    getDisplayNameByAlias [("A", ["b"]), ("B", [])] "B" = some "A" ∧
    getDisplayNameByAlias [("A", ["b"]), ("B", [])] "B" ≠ some "B" := by
  decide

/-- C7 (amended): alias resolution is case-insensitive (it depends only on the
lower-cased query) and yields at most one display name; resolving a configured
display name returns the first matching entry, which need not be the name
itself when an earlier entry's display name or alias set claims its
lower-casing; for the built-in default alias table, every configured display
name (queried in any casing) resolves to itself. -/
theorem C7_alias_resolution_amended :
    (∀ (table : List (String × List String)) (q q' : String),
      strToLower q = strToLower q' →
      getDisplayNameByAlias table q = getDisplayNameByAlias table q') ∧
    (∀ (table : List (String × List String)) (q d1 d2 : String),
      getDisplayNameByAlias table q = some d1 →
      getDisplayNameByAlias table q = some d2 → d1 = d2) ∧
    (∀ p ∈ defaultAliases, ∀ q : String, strToLower q = strToLower p.1 →
      getDisplayNameByAlias defaultAliases q = some p.1) := by
  refine ⟨?_, ?_, ?_⟩
  · intro table q q' h
    unfold getDisplayNameByAlias
    rw [h]
  · intro table q d1 d2 h1 h2
    rw [h1] at h2
    exact Option.some.inj h2
  · intro p hp q hq
    unfold getDisplayNameByAlias
    rw [hq]
    clear hq
    revert p
    decide

/-- Witness for C7: `"海关"` resolves to itself in the default table, and the
upper-cased query `"CUSTOMS"` resolves like `"customs"`. -/
theorem C7_witness :
    getDisplayNameByAlias defaultAliases "海关" = some "海关" ∧
    getDisplayNameByAlias defaultAliases "CUSTOMS" =
      getDisplayNameByAlias defaultAliases "customs" :=
  ⟨C7_alias_resolution_amended.2.2 ("海关", ["customs", "hg"]) (by decide) "海关"
      rfl,
    C7_alias_resolution_amended.1 defaultAliases "CUSTOMS" "customs" (by decide)⟩

/-- The exact-match scan of `_find_matching_api_map_name` over one mode's
record list: the first record with a non-empty map name whose display name
equals the query, returning its raw map name. -/
def findExactIn (records : List Rec) (display_name : String) : Option String :=
  (records.find? fun r =>
    !(r.map == "") && (getMapDisplayName r.map == display_name)).map Rec.map

/-- `_find_matching_api_map_name` (`goons/main.py` lines 226-257): exact
display-name match over PVP then PVE, then a substring match
(`display_name in api_map_name`) over both modes. -/
def findMatchingApiMapName (display_name : String) (feed : RawFeed) :
    Option String :=
  match findExactIn feed.PVP display_name with
  | some m => some m
  | none =>
    match findExactIn feed.PVE display_name with
    | some m => some m
    | none =>
      ((feed.PVP ++ feed.PVE).find? fun r =>
        !(r.map == "") && hasInfixB display_name.data r.map.data).map Rec.map

/-- The discovery list built by `query_goons_by_map` when no map matches
(`goons/main.py` lines 436-448): the distinct display names of the records
with a non-empty map name among the first 10 records of each mode
(`data["PVP"][:10]` and `data["PVE"][:10]`). -/
def availableMaps (feed : RawFeed) : List String :=
  (((feed.PVP.take 10).filter fun r => !(r.map == "")).map
      (fun r => getMapDisplayName r.map) ++
    ((feed.PVE.take 10).filter fun r => !(r.map == "")).map
      (fun r => getMapDisplayName r.map)).dedup

/-- A feed with ten distinct maps in each mode. -/
def feedC4 : RawFeed :=
  ⟨[⟨"a0", "t"⟩, ⟨"a1", "t"⟩, ⟨"a2", "t"⟩, ⟨"a3", "t"⟩, ⟨"a4", "t"⟩,
      ⟨"a5", "t"⟩, ⟨"a6", "t"⟩, ⟨"a7", "t"⟩, ⟨"a8", "t"⟩, ⟨"a9", "t"⟩],
    [⟨"b0", "t"⟩, ⟨"b1", "t"⟩, ⟨"b2", "t"⟩, ⟨"b3", "t"⟩, ⟨"b4", "t"⟩,
      ⟨"b5", "t"⟩, ⟨"b6", "t"⟩, ⟨"b7", "t"⟩, ⟨"b8", "t"⟩, ⟨"b9", "t"⟩]⟩

/-- C4 (counterexample): for the query `"zz"`, which matches no record of
`feedC4`, the discovery list has 20 distinct entries — the claimed bound of
at most 10 is exceeded, because the code scans the first 10 records of each
of the two modes. -/
theorem C4_counterexample :
    findMatchingApiMapName "zz" feedC4 = none ∧
    (availableMaps feedC4).length = 20 ∧
    ¬ (availableMaps feedC4).length ≤ 10 := by
  decide

/-- C4 (amended): when a per-map query matches no record in the feed, the
discovery list contains at most 20 distinct display names — at most 10 drawn
from the first 10 records of each mode — every entry being the display name
of one of the scanned records; the operation returns this list rather than an
error (it is total). -/
theorem C4_discovery_amended (d : String) (feed : RawFeed)
    (_h : findMatchingApiMapName d feed = none) :
    (availableMaps feed).length ≤ 20 ∧ (availableMaps feed).Nodup ∧
    ∀ m ∈ availableMaps feed,
      ∃ r, (r ∈ feed.PVP.take 10 ∨ r ∈ feed.PVE.take 10) ∧ r.map ≠ "" ∧
        getMapDisplayName r.map = m := by
  refine ⟨?_, List.nodup_dedup _, ?_⟩
  · unfold availableMaps
    refine le_trans (List.Sublist.length_le (List.dedup_sublist _)) ?_
    rw [List.length_append, List.length_map, List.length_map]
    have h1 : ((feed.PVP.take 10).filter fun r => !(r.map == "")).length ≤ 10 :=
      le_trans (List.length_filter_le _ _) (List.length_take_le _ _)
    have h2 : ((feed.PVE.take 10).filter fun r => !(r.map == "")).length ≤ 10 :=
      le_trans (List.length_filter_le _ _) (List.length_take_le _ _)
    omega
  · intro m hm
    unfold availableMaps at hm
    rw [List.mem_dedup, List.mem_append] at hm
    rcases hm with hm | hm
    · rw [List.mem_map] at hm
      obtain ⟨r, hr, hrm⟩ := hm
      rw [List.mem_filter] at hr
      refine ⟨r, Or.inl hr.1, ?_, hrm⟩
      simpa using hr.2
    · rw [List.mem_map] at hm
      obtain ⟨r, hr, hrm⟩ := hm
      rw [List.mem_filter] at hr
      refine ⟨r, Or.inr hr.1, ?_, hrm⟩
      simpa using hr.2

/-- Witness for C4 at a one-record feed and the unmatched query `"zz"`. -/
theorem C4_witness :
    (availableMaps ⟨[⟨"Customs / 海关", "t"⟩], []⟩).length ≤ 20 :=
  (C4_discovery_amended "zz" ⟨[⟨"Customs / 海关", "t"⟩], []⟩ (by decide)).1

/-- Result of one call to `_get_data_from_api_async` as observed by
`_fetch_data_async`: decoded data; a `None` return (the upstream sent no
usable data, or a request / status / JSON error was caught inside
`_get_data_from_api_async`); or an exception escaping into
`_fetch_data_async`'s own `except` branch. -/
inductive FetchResult where
  | success (feed : RawFeed)
  | noData
  | raised
deriving DecidableEq

/-- The mutable plugin attributes of `goons/main.py` (`__init__` lines 40-52).
`datetime.now()` values are abstracted to an opaque `Nat` clock supplied by
the caller. -/
structure PluginState where
  data_cache : Option RawFeed
  last_update_time : Option Nat
  last_successful_fetch : Option Nat
  last_fetch_error : Option Nat
  is_refreshing : Bool
  fetch_count : Nat
  error_count : Nat
deriving DecidableEq

/-- `_fetch_data_async` (`goons/main.py` lines 96-135) as a state transition:
when a refresh is in flight the call returns `None` at once and changes
nothing; otherwise the guard is set, the fetch result is processed and the
guard is cleared in `finally`.  On success the cache and both success
timestamps are replaced, the last error is cleared and `fetch_count` is
incremented; on a `None` result `fetch_count` is still incremented (line 105
runs before the check at line 107) together with `error_count`; on a raised
exception only `error_count` is incremented.  Returns the new state paired
with the Python return value (`None` / `True` / `False`). -/
def fetchDataAsync (st : PluginState) (res : FetchResult) (now : Nat) :
    PluginState × Option Bool :=
  if st.is_refreshing then (st, none)
  else
    match res with
    | .success feed =>
      ({ st with
          data_cache := some feed
          last_update_time := some now
          last_successful_fetch := some now
          last_fetch_error := none
          is_refreshing := false
          fetch_count := st.fetch_count + 1 },
        some true)
    | .noData =>
      ({ st with
          last_fetch_error := some now
          is_refreshing := false
          fetch_count := st.fetch_count + 1
          error_count := st.error_count + 1 },
        some false)
    | .raised =>
      ({ st with
          last_fetch_error := some now
          is_refreshing := false
          error_count := st.error_count + 1 },
        some false)

/-- A concrete pre-state: a cached snapshot present, no refresh in flight,
7 fetches and 2 errors recorded. -/
def stC2 : PluginState :=
  ⟨some ⟨[⟨"Customs / 海关", "2024-01-01 10:00:00"⟩], []⟩, some 100, some 100,
    none, false, 7, 2⟩

/-- C2 (code behaviour at the failing input): when the upstream returns no
data, the cached snapshot and the last-update / last-success timestamps are
left intact and `error_count` is incremented — but `fetch_count`, the counter
the plugin itself reports as its success count (`成功获取` / `成功`, lines 121,
535, 581 and 661), is also incremented, because line 105 increments it before
the `None` check at line 107.  This contradicts the claim that only
`error_count` is incremented on a failed attempt. -/
theorem C2_failed_fetch_code_behavior :
    (fetchDataAsync stC2 FetchResult.noData 101).1.data_cache =
      stC2.data_cache ∧
    (fetchDataAsync stC2 FetchResult.noData 101).1.last_update_time =
      stC2.last_update_time ∧
    (fetchDataAsync stC2 FetchResult.noData 101).1.last_successful_fetch =
      stC2.last_successful_fetch ∧
    (fetchDataAsync stC2 FetchResult.noData 101).1.error_count =
      stC2.error_count + 1 ∧
    (fetchDataAsync stC2 FetchResult.noData 101).1.fetch_count =
      stC2.fetch_count + 1 := by
  decide

/-- C8: whenever a fetch is already in flight (`is_refreshing` is set), any
further call to `_fetch_data_async` — the entry point shared by the timer tick
(line 87), the manual refresh command (line 529) and the query bootstraps
(lines 344, 417) — starts no second fetch: the state (cache and all counters)
is unchanged and the second caller observes the no-op return `None`
(lines 98-99). -/
theorem C8_refresh_mutual_exclusion (st : PluginState) (res : FetchResult)
    (now : Nat) (h : st.is_refreshing = true) :
    fetchDataAsync st res now = (st, none) := by
  unfold fetchDataAsync
  rw [if_pos h]

/-- A concrete state with a fetch in flight. -/
def stC8 : PluginState := ⟨none, none, none, none, true, 3, 1⟩

/-- Witness for C8: at the in-flight state `stC8` the call is a no-op. -/
theorem C8_witness : fetchDataAsync stC8 FetchResult.noData 5 = (stC8, none) :=
  C8_refresh_mutual_exclusion stC8 FetchResult.noData 5 rfl

/-- State effect of `query_goons` (`goons/main.py` lines 341-346): a bootstrap
fetch runs only when the cache is empty; all later statements of the handler
only read. -/
def queryGoonsState (st : PluginState) (res : FetchResult) (now : Nat) :
    PluginState :=
  if st.data_cache = none then (fetchDataAsync st res now).1 else st

/-- State effect of `query_goons_by_map` (`goons/main.py` lines 396-419):
nothing changes when the input validation fails early (`inputOk = false`);
otherwise a bootstrap fetch runs only when the cache is empty, and the rest of
the handler only reads. -/
def queryGoonsByMapState (st : PluginState) (inputOk : Bool)
    (res : FetchResult) (now : Nat) : PluginState :=
  if !inputOk then st
  else if st.data_cache = none then (fetchDataAsync st res now).1 else st

/-- State effect of `goons_status` (`goons/main.py` lines 553-607): the
handler assigns no plugin attribute. -/
def goonsStatusState (st : PluginState) : PluginState := st

/-- C9: the three query operations never mutate the cache snapshot or the
fetch statistics once a snapshot exists — every query is then a pure read —
and when no snapshot exists yet, the list-all and per-map queries perform
exactly one bootstrap `_fetch_data_async` call before their read, while the
status query changes nothing in any case. -/
theorem C9_queries_pure_reads :
    (∀ (st : PluginState) (res : FetchResult) (now : Nat) (feed : RawFeed),
      st.data_cache = some feed →
      queryGoonsState st res now = st ∧
      (∀ b, queryGoonsByMapState st b res now = st)) ∧
    (∀ st : PluginState, goonsStatusState st = st) ∧
    (∀ (st : PluginState) (res : FetchResult) (now : Nat),
      st.data_cache = none →
      queryGoonsState st res now = (fetchDataAsync st res now).1 ∧
      queryGoonsByMapState st true res now = (fetchDataAsync st res now).1) := by
  refine ⟨?_, fun st => rfl, ?_⟩
  · intro st res now feed h
    have hne : ¬ st.data_cache = none := by
      rw [h]
      simp
    refine ⟨?_, ?_⟩
    · unfold queryGoonsState
      rw [if_neg hne]
    · intro b
      unfold queryGoonsByMapState
      cases b with
      | false => simp
      | true => simp [hne]
  · intro st res now h
    refine ⟨?_, ?_⟩
    · unfold queryGoonsState
      rw [if_pos h]
    · unfold queryGoonsByMapState
      simp [h]

/-- A concrete state with a (possibly empty) snapshot present. -/
def stC9 : PluginState := ⟨some ⟨[], []⟩, some 50, some 50, none, false, 4, 0⟩

/-- Witness for C9: with a snapshot present, all three query operations leave
the state unchanged. -/
theorem C9_witness :
    queryGoonsState stC9 FetchResult.noData 51 = stC9 ∧
    queryGoonsByMapState stC9 true FetchResult.noData 51 = stC9 ∧
    goonsStatusState stC9 = stC9 := by
  obtain ⟨h1, h2⟩ := C9_queries_pure_reads.1 stC9 FetchResult.noData 51 ⟨[], []⟩ rfl
  exact ⟨h1, h2 true, C9_queries_pure_reads.2.1 stC9⟩

end Goons
